import Mathlib

/-!
Verification of the CPU introspection command (`chipsec/utilcmd/cpu_cmd.py`)
and the CPU HAL core it drives, against its specification.

The command-dispatch layer (`CPUCommand.cpu_cr`, `cpu_pt`, `cpu_info`, `run`)
is embedded directly from the Python source.  The HAL core it calls into
(register-access facade, page-table walker, topology parser) is not part of
the source tree; those components are modelled from the specification, as
marked on each definition.
-/

namespace CpuCmd

/-- Errors of the register-access layer, from the spec's error taxonomy
(§7): `InvalidArgument` is rejected before any privileged call,
`ThreadUnavailable` is a per-thread failure of the privileged channel. -/
inductive CRErr where
  | invalidArgument
  | threadUnavailable
deriving DecidableEq, Repr

/-- A record of one privileged-channel call, used to state that an error
path makes no call to the channel. -/
inductive PrivCall where
  | readCR (thread cr : Nat)
  | writeCR (thread cr value : Nat)
deriving DecidableEq, Repr

/-- The privileged access channel's register state: a 64-bit value per
(thread, control-register) pair, and per-thread availability (an
unavailable thread makes the channel fail with `ThreadUnavailable`). -/
structure Channel where
  regs : Nat → Nat → Nat
  avail : Nat → Bool

/-- The set of valid control-register numbers {0, 2, 3, 4, 8}. -/
def crValid (n : Nat) : Bool :=
  n == 0 || n == 2 || n == 3 || n == 4 || n == 8

/-- Modelled from the spec: the register-access facade's
`readControlRegister` (§4.1), absent from the source tree.  It validates
`thread` against `[0, threadCount)` and `crNumber` against {0,2,3,4,8},
failing with `InvalidArgument` before touching the channel; otherwise it
issues the privileged read, which yields the thread's 64-bit register
value or `ThreadUnavailable`.  The second component is the list of
privileged calls made. -/
def readControlRegister (tc : Nat) (ch : Channel) (t cr : Nat) :
    Except CRErr Nat × List PrivCall :=
  if t < tc ∧ crValid cr = true then
    ((if ch.avail t then .ok (ch.regs t cr % 2 ^ 64)
      else .error .threadUnavailable), [.readCR t cr])
  else (.error .invalidArgument, [])

/-- The channel state after the privileged channel accepts a write of
`v` to (thread `t`, register `cr`): that register holds `v` (as a 64-bit
value), all other registers are unchanged. -/
def writtenChannel (ch : Channel) (t cr v : Nat) : Channel :=
  { ch with
    regs := fun t' cr' =>
      if t' = t ∧ cr' = cr then v % 2 ^ 64 else ch.regs t' cr' }

/-- Modelled from the spec: the register-access facade's
`writeControlRegister` (§4.1), absent from the source tree.  Same
validation as the read path; a successful write updates the channel's
register state. -/
def writeControlRegister (tc : Nat) (ch : Channel) (t cr v : Nat) :
    Except CRErr Channel × List PrivCall :=
  if t < tc ∧ crValid cr = true then
    ((if ch.avail t then .ok (writtenChannel ch t cr v)
      else .error .threadUnavailable), [.writeCR t cr v])
  else (.error .invalidArgument, [])

/-- The value-or-error result of a facade read, ignoring the call trace. -/
def readCr (tc : Nat) (ch : Channel) (t cr : Nat) : Except CRErr Nat :=
  (readControlRegister tc ch t cr).1

/-- `cpu cr <thread> <cr_number>` (source lines 124-127): read the
register and return the value unchanged. -/
def cpuCrRead (tc : Nat) (ch : Channel) (t cr : Nat) : Except CRErr Nat :=
  readCr tc ch t cr

/-- One logged line of the all-thread control-register enumeration:
either the per-thread header or one `CRn: value` line. -/
inductive LogLine where
  | crHeader (tid : Nat)
  | crValue (tid cr value : Nat)
deriving DecidableEq, Repr

/-- The six lines logged for one thread of the enumeration
(source lines 135-140). -/
def threadLines (tid c0 c2 c3 c4 c8 : Nat) : List LogLine :=
  [.crHeader tid, .crValue tid 0 c0, .crValue tid 2 c2, .crValue tid 3 c3,
   .crValue tid 4 c4, .crValue tid 8 c8]

/-- The five reads of one loop iteration (source lines 130-134), in
order CR0, CR2, CR3, CR4, CR8; the first failure aborts the iteration
before anything is logged for that thread. -/
def readThreadCRs (tc : Nat) (ch : Channel) (tid : Nat) :
    Except CRErr (Nat × Nat × Nat × Nat × Nat) :=
  match readCr tc ch tid 0 with
  | .error e => .error e
  | .ok c0 =>
    match readCr tc ch tid 2 with
    | .error e => .error e
    | .ok c2 =>
      match readCr tc ch tid 3 with
      | .error e => .error e
      | .ok c3 =>
        match readCr tc ch tid 4 with
        | .error e => .error e
        | .ok c4 =>
          match readCr tc ch tid 8 with
          | .error e => .error e
          | .ok c8 => .ok (c0, c2, c3, c4, c8)

/-- The enumeration loop body over a list of thread ids (source lines
129-140).  Log lines already emitted persist; a failed read stops the
loop and the exception escapes (`some` error), exactly as the Python
`for` loop has no `try`/`except` around `read_cr`. -/
def cpuCrEnumList (tc : Nat) (ch : Channel) :
    List Nat → List LogLine × Option CRErr
  | [] => ([], none)
  | tid :: rest =>
    match readThreadCRs tc ch tid with
    | .error e => ([], some e)
    | .ok (c0, c2, c3, c4, c8) =>
      let (ls, err) := cpuCrEnumList tc ch rest
      (threadLines tid c0 c2 c3 c4 c8 ++ ls, err)

/-- `cpu cr` with neither register number nor value (source lines
128-140): enumerate thread ids `0 .. threadCount-1`. -/
def cpuCrEnum (tc : Nat) (ch : Channel) : List LogLine × Option CRErr :=
  cpuCrEnumList tc ch (List.range tc)

/-- The per-thread dump part of `cpu pt` without an explicit base
(source lines 160-165): read each thread's CR3, dump the hierarchy
rooted at it.  Each produced pair is one `dump_page_tables` invocation:
(originating thread id, physical base).  A read failure propagates, as
in the Python loop. -/
def cpuPtList (tc : Nat) (ch : Channel) :
    List Nat → Except CRErr (List (Option Nat × Nat))
  | [] => .ok []
  | tid :: rest =>
    match readCr tc ch tid 3 with
    | .error e => .error e
    | .ok cr3 =>
      match cpuPtList tc ch rest with
      | .error e => .error e
      | .ok r => .ok ((some tid, cr3) :: r)

/-- `cpu pt [cr3]` (source lines 153-165): with an explicit base, dump
exactly that hierarchy once (no register read); without one, dump one
hierarchy per thread, rooted at that thread's CR3. -/
def cpuPt (tc : Nat) (ch : Channel) (cr3 : Option Nat) :
    Except CRErr (List (Option Nat × Nat)) :=
  match cr3 with
  | some b => .ok [(none, b)]
  | none => cpuPtList tc ch (List.range tc)

/-- The topology parser's error: the only failure it can yield
(spec §4.3 / §7). -/
inductive TopoErr where
  | topologyUnavailable
deriving DecidableEq, Repr

/-- One logged line of `cpu info` (source lines 80-95).  Formatting is a
presentation concern; lines are modelled structurally. -/
inductive InfoLine where
  | header
  | hyperThreading (enabled : Bool)
  | coresPerPackage (n : Nat)
  | threadsPerCore (n : Nat)
  | threadsPerPackage (n : Nat)
  | sockets (n : Nat)
  | threads (n : Nat)
deriving DecidableEq, Repr

/-- The five lines `cpu info` logs before consulting the APIC table
(source lines 80-88), derived from per-thread CPUID data only. -/
def infoBaseLines (ht : Bool) (tpc tpp cpp : Nat) : List InfoLine :=
  [.header, .hyperThreading ht, .coresPerPackage cpp,
   .threadsPerCore tpc, .threadsPerPackage tpp]

/-- `cpu info` (source lines 79-95): log the per-thread-derived lines,
then try the APIC-table-derived counts (threads, sockets); any failure
there is swallowed (`except Exception: pass`) and the two extra lines
are simply not logged. -/
def cpuInfo (ht : Bool) (tpc tpp cpp : Nat)
    (apic : Except TopoErr (Nat × Nat)) : List InfoLine :=
  infoBaseLines ht tpc tpp cpp ++
    match apic with
    | .ok (threadsCount, socketsCount) =>
      [.sockets socketsCount, .threads threadsCount]
    | .error _ => []

/-- An observable event of `CPUCommand.run` (source lines 167-176):
the printed construction-error message, a log line of the selected
subcommand, or the final elapsed-time log line. -/
inductive RunEvent where
  | printedError (msg : String)
  | subLog (n : Nat)
  | elapsedLog
deriving DecidableEq, Repr

/-- `CPUCommand.run` (source lines 167-176): constructing the CPU HAL
may fail with `CPURuntimeError`, in which case the message is printed
and the method returns normally; otherwise the selected subcommand runs.
A subcommand is abstracted by its outcome: the events it emits plus an
optional exception escaping it (as the `ThreadUnavailable` escape from
the `cpu cr` enumeration does).  `self.func()` at line 175 is guarded
by no `try`/`except`, so a subcommand's exception leaves the method
before the elapsed-time log at line 176; only when the subcommand
returns normally is the elapsed-time line logged.  The result is the
emitted events plus the exception escaping `run`, if any. -/
def runCmd (construct : Except String Unit)
    (sub : List RunEvent × Option CRErr) :
    List RunEvent × Option CRErr :=
  match construct with
  | .error msg => ([.printedError msg], none)
  | .ok _ =>
    match sub.2 with
    | some e => (sub.1, some e)
    | none => (sub.1 ++ [.elapsedLog], none)

/-- One processor-local-APIC entry of the APIC table: an APIC ID and an
enabled flag (spec §4.3). -/
structure APICEntry where
  apicId : Nat
  enabled : Bool
deriving DecidableEq, Repr

/-- The topology snapshot (spec §3): package/core groupings and derived
counts. -/
structure TopologySnapshot where
  packages : List (Nat × List Nat)
  cores : List (Nat × List Nat)
  totalThreads : Nat
  threadsPerCore : Nat
  threadsPerPackage : Nat
  coresPerPackage : Nat
  hyperThreadingActive : Bool
deriving DecidableEq, Repr

/-- Group a list of ids by a key function: one pair per distinct key, in
first-occurrence order, carrying the ids that map to it. -/
def groupByKey (key : Nat → Nat) (ids : List Nat) : List (Nat × List Nat) :=
  ((ids.map key).dedup).map fun k => (k, ids.filter fun i => key i = k)

/-- The largest group cardinality of a grouping (0 when empty); the
spec's derived counts are maxima of observed group cardinalities, not
divisions (§4.3). -/
def maxGroupSize (groups : List (Nat × List Nat)) : Nat :=
  (groups.map fun g => g.2.length).foldr max 0

/-- Modelled from the spec: the topology parser's snapshot construction
(§4.3), absent from the source tree.  APIC IDs of enabled entries are
split by the CPUID-provided bit widths (`threadBits` within a core,
`coreBits` within a package); ids are grouped by core and by package,
derived counts are maximum observed group cardinalities, and
hyper-threading is active iff more than one thread shares a core. -/
def buildSnapshot (threadBits coreBits : Nat) (entries : List APICEntry) :
    TopologySnapshot :=
  let ids := ((entries.filter fun e => e.enabled).map fun e => e.apicId).dedup
  let coreOf : Nat → Nat := fun i => i / 2 ^ threadBits
  let pkgOf : Nat → Nat := fun i => i / 2 ^ (threadBits + coreBits)
  let cores := groupByKey coreOf ids
  let pkgThreads := groupByKey pkgOf ids
  let packages :=
    pkgThreads.map fun g => (g.1, (g.2.map coreOf).dedup)
  { packages := packages
    cores := cores
    totalThreads := ids.length
    threadsPerCore := maxGroupSize cores
    threadsPerPackage := maxGroupSize pkgThreads
    coresPerPackage := maxGroupSize packages
    hyperThreadingActive := decide (1 < maxGroupSize cores) }

/-- Modelled from the spec: `parseTopology` (§4.3), absent from the
source tree.  A malformed or absent APIC table (`none`) yields
`TopologyUnavailable`, the only error this parser can produce; a
well-formed table yields the snapshot. -/
def parseTopology (threadBits coreBits : Nat)
    (table : Option (List APICEntry)) : Except TopoErr TopologySnapshot :=
  match table with
  | none => .error .topologyUnavailable
  | some entries => .ok (buildSnapshot threadBits coreBits entries)

/-- The four paging modes (spec §3). -/
inductive PagingMode where
  | Legacy32
  | PAE
  | Long4Level
  | Long5Level
deriving DecidableEq, Repr

/-- The fixed number of translation levels of a mode (spec §3: 2-5). -/
def PagingMode.levels : PagingMode → Nat
  | .Legacy32 => 2
  | .PAE => 3
  | .Long4Level => 4
  | .Long5Level => 5

/-- Index bits per level: legacy tables have 1024 4-byte entries
(10 bits); 64-bit-entry tables have 512 8-byte entries (9 bits)
(spec §3, §4.2). -/
def PagingMode.indexBits : PagingMode → Nat
  | .Legacy32 => 10
  | _ => 9

/-- Slots per table page: `2 ^ indexBits` (1024 or 512). -/
def PagingMode.entriesPerTable (m : PagingMode) : Nat :=
  2 ^ m.indexBits

/-- Implemented virtual-address width of a mode: 12 page-offset bits
plus the index bits of every level. -/
def PagingMode.vaWidth (m : PagingMode) : Nat :=
  12 + m.indexBits * m.levels

/-- Whether reconstructed virtual addresses undergo canonical
sign-extension: only the 64-bit modes (spec §4.2 step 6). -/
def PagingMode.signExtended : PagingMode → Bool
  | .Long4Level => true
  | .Long5Level => true
  | _ => false

/-- A decoded page-table entry (spec §3 `PageTableEntry`). -/
structure PTEntry where
  present : Bool
  writable : Bool
  userAccessible : Bool
  pageSize : Bool
  noExecute : Bool
  physicalAddress : Nat
  rawValue : Nat
deriving DecidableEq, Repr

/-- Physical memory as seen by the walker: the decoded table page at a
physical address, or `none` when the page cannot be read (spec §4.2:
a failed page read aborts only that subtree). -/
def Memory : Type := Nat → Option (List PTEntry)

/-- Canonical sign-extension (spec §4.2 step 6): in 64-bit modes, bits
of the 64-bit virtual address above the implemented width replicate the
top implemented bit; 32-bit modes are untouched. -/
def signExtendVA (m : PagingMode) (va : Nat) : Nat :=
  if m.signExtended = true ∧ va.testBit (m.vaWidth - 1) = true then
    va + (2 ^ 64 - 2 ^ m.vaWidth)
  else va

/-- A resolved mapping (spec §3 `MappingRecord`).  `vaRaw` is the
virtual address accumulated from the index path; `virtualAddress` is
its canonical sign-extension; `sizeShift` is the log2 of the page-size
class (12/21/22/30/...). -/
structure MappingRecord where
  vaRaw : Nat
  virtualAddress : Nat
  physicalAddress : Nat
  sizeShift : Nat
  writable : Bool
  userAccessible : Bool
  noExecute : Bool
deriving DecidableEq, Repr

/-- The span covered by one entry of a table whose child sub-hierarchy
still has `sub` levels: `2 ^ (12 + indexBits * sub)` bytes. -/
def entrySpan (m : PagingMode) (sub : Nat) : Nat :=
  2 ^ (12 + m.indexBits * sub)

/-- The record emitted for a terminal present entry `e` found at
virtual address `va` with `sub` levels below it (spec §4.2 step 4):
physical address masked/aligned to the page-size class, permissions
from the entry, virtual address canonically sign-extended. -/
def mkRecord (m : PagingMode) (sub : Nat) (va : Nat) (e : PTEntry) :
    MappingRecord :=
  { vaRaw := va
    virtualAddress := signExtendVA m va
    physicalAddress := e.physicalAddress / entrySpan m sub * entrySpan m sub
    sizeShift := 12 + m.indexBits * sub
    writable := e.writable
    userAccessible := e.userAccessible
    noExecute := e.noExecute }

mutual

/-- Modelled from the spec: the page-table walker (§4.2), absent from
the source tree.  `walkTable mem m level base vbase` reads the table
page at physical `base` covering virtual addresses from `vbase`, with
`level` levels remaining (the root call uses `m.levels`).  An
unreadable page yields no records for that subtree. -/
def walkTable (mem : Memory) (m : PagingMode) :
    Nat → Nat → Nat → List MappingRecord
  | 0, _, _ => []
  | sub + 1, base, vbase =>
    match mem base with
    | none => []
    | some tbl => walkSlots mem m sub vbase 0 (tbl.take m.entriesPerTable)
termination_by level base vbase => (level, 1, 0)

/-- Decode the slots of one table in ascending index order (spec §4.2
steps 2-5): skip non-present entries; emit a record when the page-size
bit is set or this is the final level (`sub = 0`); otherwise recurse
one level down at the entry's physical address. -/
def walkSlots (mem : Memory) (m : PagingMode) (sub : Nat) (vbase : Nat) :
    Nat → List PTEntry → List MappingRecord
  | _, [] => []
  | i, e :: rest =>
    (if e.present then
      if e.pageSize || sub == 0 then
        [mkRecord m sub (vbase + i * entrySpan m sub) e]
      else
        walkTable mem m sub e.physicalAddress (vbase + i * entrySpan m sub)
     else []) ++ walkSlots mem m sub vbase (i + 1) rest
termination_by i l => (sub, 2, l.length)

end

/-- `walk(physicalBase, mode)` (spec §4.2): the full hierarchy dump
rooted at `base`, starting from virtual address 0 with the mode's full
level count. -/
def walk (mem : Memory) (m : PagingMode) (base : Nat) : List MappingRecord :=
  walkTable mem m m.levels base 0

mutual

/-- The recursion depth actually used by `walkTable` on the same
arguments: 1 for the table itself plus the deepest child walk. -/
def walkTableDepth (mem : Memory) (m : PagingMode) : Nat → Nat → Nat
  | 0, _ => 0
  | sub + 1, base =>
    match mem base with
    | none => 1
    | some tbl => 1 + walkSlotsDepth mem m sub (tbl.take m.entriesPerTable)
termination_by level base => (level, 1, 0)

/-- The deepest recursion below any slot of one table. -/
def walkSlotsDepth (mem : Memory) (m : PagingMode) (sub : Nat) :
    List PTEntry → Nat
  | [] => 0
  | e :: rest =>
    max
      (if e.present && !(e.pageSize || sub == 0) then
        walkTableDepth mem m sub e.physicalAddress
       else 0)
      (walkSlotsDepth mem m sub rest)
termination_by l => (sub, 2, l.length)

end

/-! ### Concrete channels used by witnesses and counterexamples -/

/-- A channel where every thread is available and every register reads
`0x12345000`. -/
def chOk : Channel :=
  { regs := fun _ _ => 0x12345000, avail := fun _ => true }

/-- A channel where thread 0 is unavailable but every other thread is
available. -/
def chT0Down : Channel :=
  { regs := fun _ _ => 5, avail := fun t => t != 0 }

/-- A channel where only thread 0 is available. -/
def chOnlyT0 : Channel :=
  { regs := fun _ _ => 5, avail := fun t => t == 0 }

/-! ### Theorems -/

/-- C10 counterexample: the elapsed-time line is not always logged
after a successful construction.  With the CPU HAL constructed and a
subcommand that emits one log line and then raises `ThreadUnavailable`
(the escape the `cpu cr` enumeration produces on an unavailable
thread), `run` propagates the exception from the unguarded
`self.func()` and exits before the elapsed-time log: the subcommand's
line is emitted, the elapsed-time line is not. -/
theorem runCmd_no_elapsed_counterexample :
    runCmd (.ok ()) ([.subLog 0], some .threadUnavailable) =
      ([.subLog 0], some .threadUnavailable) ∧
    RunEvent.elapsedLog ∉
      (runCmd (.ok ()) ([.subLog 0], some .threadUnavailable)).1 := by
  constructor
  · rfl
  · simp [runCmd]

/-- C10 amended: `CPUCommand.run` executes the selected subcommand only
if constructing the CPU HAL succeeds.  When construction fails with
`CPURuntimeError`, the error message is printed and the method returns:
no subcommand event and no elapsed-time line appear, and the output is
independent of the subcommand (it is not invoked).  When construction
succeeds, the subcommand runs, and the elapsed-time line is logged
exactly when the subcommand returns normally: an exception escaping the
subcommand leaves `run` before the elapsed-time log. -/
theorem runCmd_dispatches_on_construction (msg : String)
    (subEvents : List RunEvent) (e : CRErr) :
    runCmd (.error msg) (subEvents, none) = ([.printedError msg], none) ∧
    runCmd (.error msg) (subEvents, some e) = ([.printedError msg], none) ∧
    RunEvent.elapsedLog ∉ (runCmd (.error msg) (subEvents, none)).1 ∧
    runCmd (.ok ()) (subEvents, none) =
      (subEvents ++ [.elapsedLog], none) ∧
    runCmd (.ok ()) (subEvents, some e) = (subEvents, some e) := by
  refine ⟨rfl, rfl, ?_, rfl, rfl⟩
  simp [runCmd]

/-- C5: a malformed or absent APIC table yields `TopologyUnavailable`
(the parser's only error), and `cpu_info` still logs all per-thread
register/CPUID-derived lines when the APIC-table query fails: topology
failure never blocks per-thread operations. -/
theorem topology_failure_isolated (tb cb : Nat) (ht : Bool)
    (tpc tpp cpp : Nat) (e : TopoErr) :
    parseTopology tb cb none = .error .topologyUnavailable ∧
    cpuInfo ht tpc tpp cpp (.error e) = infoBaseLines ht tpc tpp cpp := by
  exact ⟨rfl, by simp [cpuInfo]⟩

/-- C6: an out-of-range thread id or an invalid register number makes
both `readControlRegister` and `writeControlRegister` fail with
`InvalidArgument`, and the list of privileged-channel calls made on
that path is empty: the channel is untouched. -/
theorem crAccess_invalid_rejected (tc : Nat) (ch : Channel) (t cr v : Nat)
    (h : ¬t < tc ∨ crValid cr = false) :
    readControlRegister tc ch t cr = (.error .invalidArgument, []) ∧
    writeControlRegister tc ch t cr v = (.error .invalidArgument, []) := by
  have hcond : ¬(t < tc ∧ crValid cr = true) := by
    rcases h with h | h
    · exact fun hc => h hc.1
    · exact fun hc => by rw [h] at hc; exact Bool.false_ne_true hc.2
  exact ⟨by simp [readControlRegister, hcond], by simp [writeControlRegister, hcond]⟩

/-- C6 witness: thread 5 with only 1 thread present is rejected with
`InvalidArgument` and no privileged call, on both the read and the
write path. -/
theorem crAccess_invalid_rejected_witness :
    readControlRegister 1 chOk 5 0 = (.error .invalidArgument, []) ∧
    writeControlRegister 1 chOk 5 0 3 = (.error .invalidArgument, []) :=
  crAccess_invalid_rejected 1 chOk 5 0 3 (Or.inl (by decide))

/-- C7: for a valid thread and register number on an available thread,
writing a 64-bit value and then reading the same thread/register
returns the written value (no concurrent mutation is modelled: the
channel state is threaded explicitly). -/
theorem cr_write_read_roundtrip (tc : Nat) (ch : Channel) (t cr v : Nat)
    (h1 : t < tc) (h2 : crValid cr = true) (h3 : ch.avail t = true)
    (h4 : v < 2 ^ 64) :
    (writeControlRegister tc ch t cr v).1 = .ok (writtenChannel ch t cr v) ∧
    (readControlRegister tc (writtenChannel ch t cr v) t cr).1 = .ok v := by
  constructor
  · simp [writeControlRegister, h1, h2, h3]
  · simp [readControlRegister, writtenChannel, h1, h2, h3,
      Nat.mod_eq_of_lt h4]
    exact h4

/-- C7 witness: on a 1-thread system, writing 7 to CR4 of thread 0 and
reading it back yields 7. -/
theorem cr_write_read_roundtrip_witness :
    (writeControlRegister 1 chOk 0 4 7).1 = .ok (writtenChannel chOk 0 4 7) ∧
    (readControlRegister 1 (writtenChannel chOk 0 4 7) 0 4).1 = .ok 7 :=
  cr_write_read_roundtrip 1 chOk 0 4 7 (by decide) (by decide) rfl (by norm_num)

/-- C8: a control-register read returns the full 64-bit value with no
truncation: whenever the channel holds the 64-bit value `v` in thread
0's CR3, the `cpu cr <thread> <cr_number>` read path returns exactly
`v`. -/
theorem cpuCrRead_full_64bit (tc : Nat) (ch : Channel) (v : Nat)
    (h0 : 0 < tc) (h1 : ch.avail 0 = true) (h2 : ch.regs 0 3 = v)
    (h3 : v < 2 ^ 64) :
    cpuCrRead tc ch 0 3 = .ok v := by
  simp [cpuCrRead, readCr, readControlRegister, crValid, h0, h1, h2,
    Nat.mod_eq_of_lt h3]
  exact h3

/-- C8 witness: a CR3 read on thread 0 whose underlying value is
`0x0000000012345000` yields exactly `0x0000000012345000`. -/
theorem cpuCrRead_full_64bit_witness :
    cpuCrRead 1 chOk 0 3 = .ok 0x0000000012345000 :=
  cpuCrRead_full_64bit 1 chOk 0x0000000012345000 (by decide) rfl rfl
    (by norm_num)

/-- On a list of thread ids that are all in range and available, the
per-thread dump loop reads each thread's CR3 and dumps one hierarchy
per thread, in order. -/
theorem cpuPtList_all_ok (tc : Nat) (ch : Channel) (l : List Nat)
    (h : ∀ t ∈ l, t < tc ∧ ch.avail t = true) :
    cpuPtList tc ch l =
      .ok (l.map fun t => (some t, ch.regs t 3 % 2 ^ 64)) := by
  induction l with
  | nil => rfl
  | cons a l ih =>
    obtain ⟨ha, hav⟩ := h a (List.mem_cons_self a l)
    have ih' := ih fun t ht => h t (List.mem_cons_of_mem a ht)
    simp [cpuPtList, readCr, readControlRegister, crValid, ha, hav, ih']

/-- C4: `cpu pt` dispatches on whether a physical base is supplied.
With a base, exactly that hierarchy is dumped once and no register is
read; without one, each thread's CR3 is read and one hierarchy per
thread is dumped, rooted at that thread's CR3. -/
theorem cpuPt_dispatch (tc b : Nat) (ch : Channel)
    (h : ∀ t, t < tc → ch.avail t = true) :
    cpuPt tc ch (some b) = .ok [(none, b)] ∧
    cpuPt tc ch none =
      .ok ((List.range tc).map fun t => (some t, ch.regs t 3 % 2 ^ 64)) := by
  refine ⟨rfl, ?_⟩
  have := cpuPtList_all_ok tc ch (List.range tc) fun t ht => by
    have htlt : t < tc := List.mem_range.mp ht
    exact ⟨htlt, h t htlt⟩
  simpa [cpuPt] using this

/-- C4 witness: on a 1-thread system, `cpu pt 7` dumps exactly the
hierarchy at base 7 once, and `cpu pt` without a base dumps thread 0's
CR3-rooted hierarchy. -/
theorem cpuPt_dispatch_witness :
    cpuPt 1 chOk (some 7) = .ok [(none, 7)] ∧
    cpuPt 1 chOk none =
      .ok ((List.range 1).map fun t => (some t, chOk.regs t 3 % 2 ^ 64)) :=
  cpuPt_dispatch 1 7 chOk fun _ _ => rfl

/-- Splitting the enumeration loop: the second half runs only when the
first half did not raise, and its log lines follow the first half's. -/
theorem cpuCrEnumList_append (tc : Nat) (ch : Channel) (l1 l2 : List Nat) :
    cpuCrEnumList tc ch (l1 ++ l2) =
      if (cpuCrEnumList tc ch l1).2 = none then
        ((cpuCrEnumList tc ch l1).1 ++ (cpuCrEnumList tc ch l2).1,
         (cpuCrEnumList tc ch l2).2)
      else cpuCrEnumList tc ch l1 := by
  induction l1 with
  | nil => simp [cpuCrEnumList]
  | cons a l1 ih =>
    simp only [List.cons_append, cpuCrEnumList]
    cases hread : readThreadCRs tc ch a with
    | error e => simp
    | ok vals =>
      obtain ⟨c0, c2, c3, c4, c8⟩ := vals
      dsimp only
      simp only [List.append_eq]
      rw [ih]
      cases herr : (cpuCrEnumList tc ch l1).2 with
      | none => simp [herr]
      | some e => simp [herr]

/-- A thread whose five reads all succeed yields its five register
values. -/
theorem readThreadCRs_ok (tc : Nat) (ch : Channel) (tid : Nat)
    (ht : tid < tc) (hav : ch.avail tid = true) :
    readThreadCRs tc ch tid =
      .ok (ch.regs tid 0 % 2 ^ 64, ch.regs tid 2 % 2 ^ 64,
           ch.regs tid 3 % 2 ^ 64, ch.regs tid 4 % 2 ^ 64,
           ch.regs tid 8 % 2 ^ 64) := by
  simp [readThreadCRs, readCr, readControlRegister, crValid, ht, hav]

/-- A thread in range whose channel is unavailable makes the loop
iteration raise `ThreadUnavailable` on its very first read. -/
theorem readThreadCRs_unavailable (tc : Nat) (ch : Channel) (tid : Nat)
    (ht : tid < tc) (hav : ch.avail tid = false) :
    readThreadCRs tc ch tid = .error .threadUnavailable := by
  simp [readThreadCRs, readCr, readControlRegister, crValid, ht, hav]

/-- Over a list of in-range, available thread ids the loop logs six
lines per thread and raises nothing. -/
theorem cpuCrEnumList_all_ok (tc : Nat) (ch : Channel) (l : List Nat)
    (h : ∀ t ∈ l, t < tc ∧ ch.avail t = true) :
    cpuCrEnumList tc ch l =
      (l.flatMap fun t =>
        threadLines t (ch.regs t 0 % 2 ^ 64) (ch.regs t 2 % 2 ^ 64)
          (ch.regs t 3 % 2 ^ 64) (ch.regs t 4 % 2 ^ 64)
          (ch.regs t 8 % 2 ^ 64), none) := by
  induction l with
  | nil => rfl
  | cons a l ih =>
    obtain ⟨ha, hav⟩ := h a (List.mem_cons_self a l)
    have ih' := ih fun t ht => h t (List.mem_cons_of_mem a ht)
    simp [cpuCrEnumList, readThreadCRs_ok tc ch a ha hav, ih']

/-- C1 counterexample: with 2 threads where thread 0's channel is down
but thread 1 is perfectly available, the all-thread enumeration
produces no output at all — neither partial results for the successful
thread 1 nor a surfaced per-thread error record — and the raised
exception escapes the loop. -/
theorem cpuCrEnum_counterexample :
    chT0Down.avail 1 = true ∧
    cpuCrEnum 2 chT0Down = ([], some .threadUnavailable) := by
  constructor
  · rfl
  · rfl

/-- C1 amended: a failure to read a register on one thread aborts the
enumeration of the remaining threads.  If threads below `k` are
available and thread `k < threadCount` is not, the loop logs the
registers of threads `0 .. k-1`, then the `ThreadUnavailable` exception
escapes and no further thread is enumerated; no per-thread error record
is produced alongside the partial output. -/
theorem cpuCrEnum_aborts_at_first_failure (tc k : Nat) (ch : Channel)
    (h1 : ∀ t, t < k → ch.avail t = true) (h2 : ch.avail k = false)
    (h3 : k < tc) :
    cpuCrEnum tc ch =
      ((List.range k).flatMap fun t =>
        threadLines t (ch.regs t 0 % 2 ^ 64) (ch.regs t 2 % 2 ^ 64)
          (ch.regs t 3 % 2 ^ 64) (ch.regs t 4 % 2 ^ 64)
          (ch.regs t 8 % 2 ^ 64),
       some .threadUnavailable) := by
  obtain ⟨m, hm⟩ : ∃ m, tc = k + (m + 1) := ⟨tc - k - 1, by omega⟩
  have hsplit : List.range tc =
      List.range k ++ (List.range (m + 1)).map (k + ·) := by
    rw [hm, List.range_add]
  have hfirst := cpuCrEnumList_all_ok tc ch (List.range k) fun t ht => by
    have htk : t < k := List.mem_range.mp ht
    exact ⟨by omega, h1 t htk⟩
  have hsecond :
      cpuCrEnumList tc ch ((List.range (m + 1)).map (k + ·)) =
        ([], some .threadUnavailable) := by
    have : (List.range (m + 1)).map (k + ·) =
        k :: ((List.range m).map fun x => k + (x + 1)) := by
      rw [List.range_succ_eq_map]
      simp [List.map_map]
    rw [this]
    simp [cpuCrEnumList, readThreadCRs_unavailable tc ch k h3 h2]
  rw [cpuCrEnum, hsplit, cpuCrEnumList_append, hfirst, hsecond]
  simp

/-- C1 amended witness: with 2 threads where thread 0 is available and
thread 1 is not, the enumeration logs thread 0's registers and then the
exception escapes. -/
theorem cpuCrEnum_aborts_witness :
    cpuCrEnum 2 chOnlyT0 =
      ((List.range 1).flatMap fun t =>
        threadLines t (chOnlyT0.regs t 0 % 2 ^ 64)
          (chOnlyT0.regs t 2 % 2 ^ 64) (chOnlyT0.regs t 3 % 2 ^ 64)
          (chOnlyT0.regs t 4 % 2 ^ 64) (chOnlyT0.regs t 8 % 2 ^ 64),
       some .threadUnavailable) :=
  cpuCrEnum_aborts_at_first_failure 2 1 chOnlyT0
    (fun t ht => by
      have ht0 : t = 0 := by omega
      subst ht0
      rfl)
    rfl (by omega)

/-- The walker's recursion depth is bounded by the number of remaining
levels, for every memory contents — including self-referential
tables. -/
theorem walkTableDepth_le (mem : Memory) (m : PagingMode) :
    ∀ level base, walkTableDepth mem m level base ≤ level := by
  intro level
  induction level with
  | zero => intro base; simp [walkTableDepth]
  | succ sub ih =>
    intro base
    have hslots : ∀ l : List PTEntry, walkSlotsDepth mem m sub l ≤ sub := by
      intro l
      induction l with
      | nil => simp [walkSlotsDepth]
      | cons e rest ihl =>
        rw [walkSlotsDepth]
        apply max_le _ ihl
        split
        · exact ih _
        · exact Nat.zero_le _
    rw [walkTableDepth]
    cases mem base with
    | none => dsimp only; omega
    | some tbl =>
      have := hslots (tbl.take m.entriesPerTable)
      dsimp only
      omega

/-- C2: for every paging mode and every table contents — including an
entry pointing back at an ancestor table page — the walk's recursion
depth never exceeds the mode's fixed level count, which is 2 for
Legacy32, 3 for PAE, 4 for Long4Level and 5 for Long5Level; the walk is
a total function, so it always terminates. -/
theorem walk_depth_bounded (mem : Memory) (m : PagingMode) (base : Nat) :
    walkTableDepth mem m m.levels base ≤ m.levels ∧
    PagingMode.levels .Legacy32 = 2 ∧ PagingMode.levels .PAE = 3 ∧
    PagingMode.levels .Long4Level = 4 ∧
    PagingMode.levels .Long5Level = 5 :=
  ⟨walkTableDepth_le mem m m.levels base, rfl, rfl, rfl, rfl⟩

/-- One more slot index is one more entry span. -/
theorem entrySpan_succ (m : PagingMode) (sub : Nat) :
    entrySpan m (sub + 1) = 2 ^ m.indexBits * entrySpan m sub := by
  rw [entrySpan, entrySpan, Nat.mul_succ, ← pow_add]
  ring_nf

/-- Entry spans are positive. -/
theorem entrySpan_pos (m : PagingMode) (sub : Nat) : 0 < entrySpan m sub :=
  Nat.pos_pow_of_pos _ (by norm_num)

/-- Every record found below one table slot lies in that slot's
virtual-address span, and carries the canonical sign-extension of its
raw reconstructed address.  Stated for `walkSlots` assuming it for
child tables. -/
theorem walkSlots_shape (mem : Memory) (m : PagingMode) (sub : Nat)
    (htab : ∀ base vbase r, r ∈ walkTable mem m sub base vbase →
      (vbase ≤ r.vaRaw ∧ r.vaRaw < vbase + entrySpan m sub) ∧
      r.virtualAddress = signExtendVA m r.vaRaw) :
    ∀ (l : List PTEntry) (vbase i : Nat) (r : MappingRecord),
      r ∈ walkSlots mem m sub vbase i l →
      (vbase + i * entrySpan m sub ≤ r.vaRaw ∧
       r.vaRaw < vbase + (i + l.length) * entrySpan m sub) ∧
      r.virtualAddress = signExtendVA m r.vaRaw := by
  intro l
  induction l with
  | nil => intro vbase i r hr; rw [walkSlots] at hr; simp at hr
  | cons e rest ihl =>
    intro vbase i r hr
    rw [walkSlots] at hr
    rcases List.mem_append.mp hr with hblock | hrest
    · have hE := entrySpan_pos m sub
      split at hblock
      · split at hblock
        · rcases List.mem_singleton.mp hblock with rfl
          refine ⟨⟨le_refl _, ?_⟩, rfl⟩
          simp only [mkRecord]
          have : (i + (rest.length + 1)) * entrySpan m sub =
              i * entrySpan m sub + (rest.length + 1) * entrySpan m sub := by
            ring
          simp only [List.length_cons, this]
          have : 0 < (rest.length + 1) * entrySpan m sub :=
            Nat.mul_pos (by omega) hE
          omega
        · obtain ⟨⟨hlo, hhi⟩, hva⟩ := htab _ _ _ hblock
          refine ⟨⟨hlo, ?_⟩, hva⟩
          have : (i + (rest.length + 1)) * entrySpan m sub =
              i * entrySpan m sub + entrySpan m sub +
                rest.length * entrySpan m sub := by
            ring
          simp only [List.length_cons, this]
          omega
      · simp at hblock
    · obtain ⟨⟨hlo, hhi⟩, hva⟩ := ihl vbase (i + 1) r hrest
      have hE := entrySpan_pos m sub
      refine ⟨⟨?_, ?_⟩, hva⟩
      · have : i * entrySpan m sub ≤ (i + 1) * entrySpan m sub :=
          Nat.mul_le_mul_right _ (by omega)
        omega
      · have : (i + 1 + rest.length) * entrySpan m sub =
            (i + (rest.length + 1)) * entrySpan m sub := by ring
        rw [this] at hhi
        simpa using hhi

/-- Every record of a walked table lies in the table's virtual-address
span and carries the canonical sign-extension of its raw address. -/
theorem walkTable_shape (mem : Memory) (m : PagingMode) :
    ∀ (level : Nat) (base vbase : Nat) (r : MappingRecord),
      r ∈ walkTable mem m level base vbase →
      (vbase ≤ r.vaRaw ∧ r.vaRaw < vbase + entrySpan m level) ∧
      r.virtualAddress = signExtendVA m r.vaRaw := by
  intro level
  induction level with
  | zero => intro base vbase r hr; rw [walkTable] at hr; simp at hr
  | succ sub ih =>
    intro base vbase r hr
    rw [walkTable] at hr
    cases hmem : mem base with
    | none => rw [hmem] at hr; simp at hr
    | some tbl =>
      rw [hmem] at hr
      obtain ⟨⟨hlo, hhi⟩, hva⟩ := walkSlots_shape mem m sub ih _ vbase 0 r hr
      refine ⟨⟨by simpa using hlo, ?_⟩, hva⟩
      have hlen : (tbl.take m.entriesPerTable).length ≤ 2 ^ m.indexBits := by
        have := List.length_take_le m.entriesPerTable tbl
        rw [PagingMode.entriesPerTable] at this
        exact this
      have hmono : (0 + (tbl.take m.entriesPerTable).length) *
          entrySpan m sub ≤ 2 ^ m.indexBits * entrySpan m sub := by
        apply Nat.mul_le_mul_right
        omega
      rw [entrySpan_succ]
      omega

/-- Records of one table's slots are strictly ascending by raw
reconstructed virtual address, assuming child tables are. -/
theorem walkSlots_sorted (mem : Memory) (m : PagingMode) (sub : Nat)
    (htab : ∀ base vbase r, r ∈ walkTable mem m sub base vbase →
      (vbase ≤ r.vaRaw ∧ r.vaRaw < vbase + entrySpan m sub) ∧
      r.virtualAddress = signExtendVA m r.vaRaw)
    (htabSorted : ∀ base vbase,
      (walkTable mem m sub base vbase).Pairwise
        fun r s => r.vaRaw < s.vaRaw) :
    ∀ (l : List PTEntry) (vbase i : Nat),
      (walkSlots mem m sub vbase i l).Pairwise
        fun r s => r.vaRaw < s.vaRaw := by
  intro l
  induction l with
  | nil => intro vbase i; rw [walkSlots]; exact List.Pairwise.nil
  | cons e rest ihl =>
    intro vbase i
    rw [walkSlots]
    rw [List.pairwise_append]
    refine ⟨?_, ihl vbase (i + 1), ?_⟩
    · split
      · split
        · simp
        · exact htabSorted _ _
      · simp
    · intro x hx y hy
      have hE := entrySpan_pos m sub
      have hxhi : x.vaRaw < vbase + (i + 1) * entrySpan m sub := by
        split at hx
        · split at hx
          · rcases List.mem_singleton.mp hx with rfl
            simp only [mkRecord]
            have : (i + 1) * entrySpan m sub =
                i * entrySpan m sub + entrySpan m sub := by ring
            omega
          · have := (htab _ _ _ hx).1.2
            have heq : (i + 1) * entrySpan m sub =
                i * entrySpan m sub + entrySpan m sub := by ring
            omega
        · simp at hx
      have hylo : vbase + (i + 1) * entrySpan m sub ≤ y.vaRaw :=
        (walkSlots_shape mem m sub htab rest vbase (i + 1) y hy).1.1
      omega

/-- Records of a walked table are strictly ascending by raw
reconstructed virtual address. -/
theorem walkTable_sorted (mem : Memory) (m : PagingMode) :
    ∀ (level base vbase : Nat),
      (walkTable mem m level base vbase).Pairwise
        fun r s => r.vaRaw < s.vaRaw := by
  intro level
  induction level with
  | zero => intro base vbase; rw [walkTable]; exact List.Pairwise.nil
  | succ sub ih =>
    intro base vbase
    rw [walkTable]
    cases mem base with
    | none => exact List.Pairwise.nil
    | some tbl =>
      exact walkSlots_sorted mem m sub (walkTable_shape mem m sub) ih _ vbase 0

/-- In a 64-bit mode, bit `vaWidth - 1` of a raw address below
`2 ^ vaWidth` is set exactly when the address is at least
`2 ^ (vaWidth - 1)`. -/
theorem testBit_top_iff {w z : Nat} (hw : 0 < w) (hz : z < 2 ^ w) :
    z.testBit (w - 1) = true ↔ 2 ^ (w - 1) ≤ z := by
  have hp : 0 < 2 ^ (w - 1) := Nat.pos_pow_of_pos _ (by norm_num)
  have h2 : 2 ^ w = 2 ^ (w - 1) * 2 := by
    rw [← pow_succ]
    congr 1
    omega
  have hdiv : z / 2 ^ (w - 1) < 2 := Nat.div_lt_of_lt_mul (by omega)
  rw [Nat.testBit_to_div_mod, Nat.mod_eq_of_lt hdiv, decide_eq_true_iff]
  constructor
  · intro h1
    exact (Nat.one_le_div_iff hp).mp (by omega)
  · intro h1
    have := (Nat.one_le_div_iff hp).mpr h1
    omega

/-- Canonical sign-extension is strictly monotone on the implemented
virtual-address range: the reconstruction order of raw addresses is
preserved. -/
theorem signExtendVA_strictMono (m : PagingMode) {x y : Nat}
    (hxy : x < y) (hy : y < 2 ^ m.vaWidth) :
    signExtendVA m x < signExtendVA m y := by
  have hx : x < 2 ^ m.vaWidth := lt_trans hxy hy
  have hw : 0 < m.vaWidth := by
    cases m <;> simp [PagingMode.vaWidth, PagingMode.indexBits,
      PagingMode.levels]
  rw [signExtendVA, signExtendVA]
  by_cases hse : m.signExtended = true
  · by_cases hxt : x.testBit (m.vaWidth - 1) = true
    · have hxtop : 2 ^ (m.vaWidth - 1) ≤ x := (testBit_top_iff hw hx).mp hxt
      have hyt : y.testBit (m.vaWidth - 1) = true :=
        (testBit_top_iff hw hy).mpr (by omega)
      rw [if_pos ⟨hse, hxt⟩, if_pos ⟨hse, hyt⟩]
      omega
    · rw [if_neg fun hc => hxt hc.2]
      by_cases hyt : y.testBit (m.vaWidth - 1) = true
      · rw [if_pos ⟨hse, hyt⟩]
        omega
      · rw [if_neg fun hc => hyt hc.2]
        exact hxy
  · rw [if_neg fun hc => hse hc.1, if_neg fun hc => hse hc.1]
    exact hxy

/-- The entry span at a mode's full level count is the mode's full
implemented virtual-address range. -/
theorem entrySpan_levels (m : PagingMode) :
    entrySpan m m.levels = 2 ^ m.vaWidth := rfl

/-- C3: for every memory contents, mode and base, the records of a
single walk are strictly ascending by reconstructed (canonically
sign-extended) virtual address; in particular no two records share a
virtual address, so no two share a virtual-address range.  Ascending
order holds because entries are visited in ascending index order at
each level, depth-first. -/
theorem walk_strictly_ascending (mem : Memory) (m : PagingMode)
    (base : Nat) :
    ((walk mem m base).Pairwise
      fun r s => r.virtualAddress < s.virtualAddress) ∧
    ((walk mem m base).Pairwise
      fun r s => r.virtualAddress ≠ s.virtualAddress) := by
  have hsorted : (walk mem m base).Pairwise
      fun r s => r.vaRaw < s.vaRaw := walkTable_sorted mem m m.levels base 0
  have hmain : (walk mem m base).Pairwise
      fun r s => r.virtualAddress < s.virtualAddress := by
    refine List.Pairwise.imp_of_mem ?_ hsorted
    intro r s hr hs hlt
    have hrshape := walkTable_shape mem m m.levels base 0 r hr
    have hsshape := walkTable_shape mem m m.levels base 0 s hs
    rw [hrshape.2, hsshape.2]
    apply signExtendVA_strictMono m hlt
    have := hsshape.1.2
    rw [entrySpan_levels] at this
    omega
  exact ⟨hmain, hmain.imp ne_of_lt⟩

/-- The maximum group cardinality exceeds `n` exactly when some group's
cardinality does. -/
theorem lt_maxGroupSize_iff (groups : List (Nat × List Nat)) (n : Nat) :
    n < maxGroupSize groups ↔ ∃ g ∈ groups, n < g.2.length := by
  induction groups with
  | nil => simp [maxGroupSize]
  | cons g gs ih =>
    rw [maxGroupSize] at *
    simp only [List.map_cons, List.foldr_cons]
    rw [lt_max_iff, ih]
    simp

/-- C9: in every snapshot the topology parser produces,
`hyperThreadingActive` is true exactly when some core's group of
enabled threads has cardinality greater than 1. -/
theorem hyperThreading_iff_shared_core (tb cb : Nat)
    (table : Option (List APICEntry)) (snap : TopologySnapshot)
    (h : parseTopology tb cb table = .ok snap) :
    snap.hyperThreadingActive = true ↔
      ∃ g ∈ snap.cores, 1 < g.2.length := by
  cases table with
  | none => simp [parseTopology] at h
  | some entries =>
    have hsnap : snap = buildSnapshot tb cb entries := by
      simpa [parseTopology] using h.symm
    subst hsnap
    simp only [buildSnapshot]
    rw [decide_eq_true_iff]
    exact lt_maxGroupSize_iff _ 1

/-- The spec's scenario table: 8 enabled local-APIC entries with APIC
IDs 0-7. -/
def ents8 : List APICEntry :=
  [⟨0, true⟩, ⟨1, true⟩, ⟨2, true⟩, ⟨3, true⟩,
   ⟨4, true⟩, ⟨5, true⟩, ⟨6, true⟩, ⟨7, true⟩]

/-- The snapshot the parser builds for `ents8` with a 1-bit thread
split and a 1-bit core split (2 packages of 2 cores of 2 threads). -/
def snap8 : TopologySnapshot :=
  (parseTopology 1 1 (some ents8)).toOption.getD
    ⟨[], [], 0, 0, 0, 0, false⟩

/-- C9 witness: on the 2 packages × 2 cores × 2 threads table, the
parser succeeds and reports hyper-threading active, matching a core
group of cardinality 2. -/
theorem hyperThreading_iff_shared_core_witness :
    parseTopology 1 1 (some ents8) = .ok snap8 ∧
    (snap8.hyperThreadingActive = true ↔
      ∃ g ∈ snap8.cores, 1 < g.2.length) :=
  ⟨rfl, hyperThreading_iff_shared_core 1 1 (some ents8) snap8 rfl⟩

end CpuCmd
